import Mathlib

/-!
Verification development for the resumable batch runner in
`src/parse-ben-davis-comments.ts`.

The script reads a fixed list of video IDs from an input JSON document,
loads (or initializes) a JSON progress record, filters out already-attempted
IDs, partitions the remainder into batches of `BATCH_SIZE = 10`, dispatches
each batch concurrently to an HTTP endpoint via `makeCommentRequest`,
records per-item success/failure, and persists the progress record after
every batch.

Shallow embedding conventions:
* The network is a pure oracle `net : String → FetchResult` giving, per
  video ID, either an HTTP response status or a transport error.  The Fetch
  API's `response.ok` (true exactly for statuses 200–299) is `responseOk`.
* Timestamps (`new Date().toISOString()`) come from a clock oracle
  `clock : Nat → String`; each batch uses one tick (the timestamps are
  opaque strings whose exact values never influence control flow).
* File reads are `FileState` values (missing / malformed / parsed);
  `writeFileSync` of the progress file is modeled by recording each saved
  `ProgressData` value, in write order, in the run trace.
* `process.exit(1)` at startup is the `MainResult.aborted` outcome.
* Console output is not modeled, except the "all already processed" early
  completion report which is the `earlyComplete` flag of the trace.
* The inter-batch `setTimeout` delay has no observable state effect and is
  not modeled.
-/

namespace ParseBenDavisComments

/-- `const BATCH_SIZE = 10`. -/
def BATCH_SIZE : Nat := 10

/-- One entry of `VideoIdsData.channels`. -/
structure Channel where
  channelId : String
  channelName : String
  videoIds : List String
  totalCount : Nat
  deriving DecidableEq, Repr

/-- The input document shape (`interface VideoIdsData`). -/
structure VideoIdsData where
  fetchedAt : String
  channels : List Channel
  totalVideos : Nat
  deriving DecidableEq, Repr

/-- One entry of `ProgressData.failedVideos`. -/
structure FailedVideo where
  videoId : String
  error : String
  timestamp : String
  deriving DecidableEq, Repr

/-- The durable progress record (`interface ProgressData`). -/
structure ProgressData where
  startedAt : String
  lastUpdated : String
  totalVideos : Nat
  completedVideos : Nat
  successfulVideos : List String
  failedVideos : List FailedVideo
  currentBatch : Nat
  totalBatches : Nat
  deriving DecidableEq, Repr

/-- Outcome of one `fetch` call: an HTTP response with a status code, or a
thrown transport error (caught by `makeCommentRequest`). -/
inductive FetchResult where
  | response (status : Nat)
  | transportError (message : String)
  deriving DecidableEq, Repr

/-- The Fetch API's `response.ok`: true exactly when the status is 200–299. -/
def responseOk (status : Nat) : Bool :=
  200 ≤ status && status ≤ 299

/-- `makeCommentRequest(videoId)`: POSTs the ID to the endpoint, returns
`true` on `response.ok`, `false` on any other status, and `false` for any
thrown error (the `catch` branch).  Total: it never propagates an error. -/
def makeCommentRequest (net : String → FetchResult) (videoId : String) : Bool :=
  match net videoId with
  | .response status => responseOk status
  | .transportError _ => false

/-- State of a JSON file on disk, as seen through `readFileSync` +
`JSON.parse`: absent, present but unparseable, or parsed to a value. -/
inductive FileState (α : Type) where
  | missing
  | malformed
  | parsed (a : α)
  deriving DecidableEq, Repr

/-- `loadProgress()`: returns `null` when the file does not exist, and —
because the `JSON.parse` failure is caught and logged — also returns `null`
when the file is malformed. -/
def loadProgress : FileState ProgressData → Option ProgressData
  | .missing => none
  | .malformed => none
  | .parsed p => some p

/-- `saveProgress(progress)`: refreshes `lastUpdated` and writes the record;
the returned value is exactly what is persisted. -/
def saveProgress (now : String) (p : ProgressData) : ProgressData :=
  { p with lastUpdated := now }

/-- `getBenDavisVideoIds()`: parses the input document and selects the
"Ben Davis" channel's ID list.  A missing file, a parse failure, or an
absent channel all reach the `catch` / `throw` and `process.exit(1)`,
modeled as `none`. -/
def getBenDavisVideoIds : FileState VideoIdsData → Option (List String)
  | .missing => none
  | .malformed => none
  | .parsed data =>
    match data.channels.find? (fun channel => channel.channelName == "Ben Davis") with
    | none => none
    | some benDavisChannel => some benDavisChannel.videoIds

/-- The `processedVideoIds` set built in `main` (lines 172–175): the union
of `successfulVideos` and the IDs of `failedVideos`.  The JS `Set` only
supplies membership tests, so a list with `contains` is an exact model. -/
def processedVideoIds (p : ProgressData) : List String :=
  p.successfulVideos ++ p.failedVideos.map FailedVideo.videoId

/-- The remaining-items computation of `main` (line 176), named
`resolveRemainder` in the specification:
`allVideoIds.filter((id) => !processedVideoIds.has(id))`. -/
def resolveRemainder (allVideoIds : List String) (p : ProgressData) : List String :=
  allVideoIds.filter (fun id => !(processedVideoIds p).contains id)

/-- A settled promise from `Promise.allSettled`: fulfilled with a value or
rejected with a reason. -/
inductive SettledResult (α : Type) where
  | fulfilled (value : α)
  | rejected (reason : String)
  deriving DecidableEq, Repr

/-- The per-item promise value `{ videoId, success }` built in
`processBatch`. -/
structure ItemOutcome where
  videoId : String
  success : Bool
  deriving DecidableEq, Repr

/-- Whether a settled result is fulfilled (a determinate per-item outcome). -/
def isFulfilled : SettledResult α → Bool
  | .fulfilled _ => true
  | .rejected _ => false

/-- Number of fulfilled (determinate) results in a settled batch. -/
def countFulfilled (results : List (SettledResult α)) : Nat :=
  (results.filter isFulfilled).length

/-- One iteration of the `for (const result of batchResults)` loop in
`processBatch` (lines 118–134): a fulfilled success pushes the ID onto
`successfulVideos`, a fulfilled failure pushes a `"Request failed"` record
onto `failedVideos`, and either increments `completedVideos`; a rejected
result is only logged and changes nothing. -/
def applyResult (now : String) (p : ProgressData) :
    SettledResult ItemOutcome → ProgressData
  | .fulfilled v =>
    if v.success then
      { p with
        successfulVideos := p.successfulVideos ++ [v.videoId],
        completedVideos := p.completedVideos + 1 }
    else
      { p with
        failedVideos := p.failedVideos ++ [⟨v.videoId, "Request failed", now⟩],
        completedVideos := p.completedVideos + 1 }
  | .rejected _ => p

/-- The state transformation of `processBatch` given the settled results of
its batch: fold the aggregation loop, increment `currentBatch`, then
`saveProgress`. -/
def processBatchCore (now : String) (results : List (SettledResult ItemOutcome))
    (p : ProgressData) : ProgressData :=
  let p1 := results.foldl (applyResult now) p
  saveProgress now { p1 with currentBatch := p1.currentBatch + 1 }

/-- The settled results `Promise.allSettled` produces in `processBatch`:
each mapped promise awaits `makeCommentRequest` (which never throws) and
then constructs `{ videoId, success }`, so every promise fulfills. -/
def batchSettled (net : String → FetchResult) (videoIds : List String) :
    List (SettledResult ItemOutcome) :=
  videoIds.map (fun videoId => .fulfilled ⟨videoId, makeCommentRequest net videoId⟩)

/-- `processBatch(videoIds, progress)`: dispatch the batch concurrently,
settle, aggregate, advance the batch counter, persist. -/
def processBatch (net : String → FetchResult) (now : String)
    (videoIds : List String) (p : ProgressData) : ProgressData :=
  processBatchCore now (batchSettled net videoIds) p

/-- Structural engine for the batching loop: each iteration takes one
`slice(i, i + B)` (i.e. `take B` of the unprocessed suffix) and recurses on
`drop B`.  The `fuel` argument only bounds the iteration count so the
recursion is structural; with `fuel ≥ l.length` and `B > 0` (the source
always uses `B = BATCH_SIZE = 10`) it never runs out before the list does. -/
def chunksGo (B : Nat) : Nat → List α → List (List α)
  | _, [] => []
  | 0, _ :: _ => []
  | fuel + 1, x :: xs => ((x :: xs).take B) :: chunksGo B fuel ((x :: xs).drop B)

/-- The batching loop of `main` (lines 204–213):
`for (let i = 0; i < n; i += BATCH_SIZE) slice(i, i + BATCH_SIZE)`. -/
def chunks (B : Nat) (l : List α) : List (List α) :=
  chunksGo B l.length l

/-- The observable trace of one completed `main()` run: the IDs dispatched
to the endpoint in order, every progress record written to disk in write
order, the final in-memory record (which equals the last written one when
any write happened), and whether the "all already processed" early
completion report was emitted. -/
structure RunResult where
  dispatched : List String
  saved : List ProgressData
  finalProgress : ProgressData
  earlyComplete : Bool
  deriving DecidableEq, Repr

/-- Outcome of `main()`: startup abort via `process.exit(1)`, or a
completed run with its trace. -/
inductive MainResult where
  | aborted
  | done (r : RunResult)
  deriving DecidableEq, Repr

/-- The sequential batch loop: process each chunk in order, accumulating the
dispatch trace and the per-batch saves.  Batch `k` uses clock tick `t + k`. -/
def runBatchesAux (net : String → FetchResult) (clock : Nat → String) :
    List (List String) → Nat → ProgressData →
      List String × List ProgressData × ProgressData
  | [], _, p => ([], [], p)
  | b :: rest, t, p =>
    let p1 := processBatch net (clock t) b p
    let r := runBatchesAux net clock rest (t + 1) p1
    (b ++ r.1, p1 :: r.2.1, r.2.2)

/-- The batch-processing tail of `main`, packaging the trace. -/
def runBatches (net : String → FetchResult) (clock : Nat → String)
    (remaining : List String) (p : ProgressData)
    (saved0 : List ProgressData) : RunResult :=
  let r := runBatchesAux net clock (chunks BATCH_SIZE remaining) 1 p
  ⟨r.1, saved0 ++ r.2.1, r.2.2, false⟩

/-- `main()` (lines 153–229): read the input document (abort on failure),
load progress, resume (filtering already-processed IDs) or initialize and
immediately persist a fresh record, stop early if nothing remains, else
process the remaining IDs in batches of `BATCH_SIZE`. -/
def main (input : FileState VideoIdsData) (progressFile : FileState ProgressData)
    (net : String → FetchResult) (clock : Nat → String) : MainResult :=
  match getBenDavisVideoIds input with
  | none => .aborted
  | some allVideoIds =>
    match loadProgress progressFile with
    | some progress =>
      let remainingVideoIds := resolveRemainder allVideoIds progress
      if remainingVideoIds.length = 0 then
        .done ⟨[], [], progress, true⟩
      else
        .done (runBatches net clock remainingVideoIds progress [])
    | none =>
      let remainingVideoIds := allVideoIds
      let totalBatches := (remainingVideoIds.length + BATCH_SIZE - 1) / BATCH_SIZE
      let progress : ProgressData :=
        ⟨clock 0, clock 0, allVideoIds.length, 0, [], [], 1, totalBatches⟩
      let progress := saveProgress (clock 0) progress
      if remainingVideoIds.length = 0 then
        .done ⟨[], [progress], progress, true⟩
      else
        .done (runBatches net clock remainingVideoIds progress [progress])

/-- Dispatch trace of a `main` outcome (empty when the run aborted before
any batch). -/
def dispatchedOf : MainResult → List String
  | .aborted => []
  | .done r => r.dispatched

/-! ## Helper lemmas about the batch aggregation loop -/

/-- Field bookkeeping of one aggregation-loop iteration. -/
lemma applyResult_spec (now : String) (p : ProgressData) (r : SettledResult ItemOutcome) :
    (applyResult now p r).totalVideos = p.totalVideos ∧
    (applyResult now p r).startedAt = p.startedAt ∧
    (applyResult now p r).currentBatch = p.currentBatch ∧
    (applyResult now p r).totalBatches = p.totalBatches ∧
    (applyResult now p r).completedVideos
      = p.completedVideos + (if isFulfilled r then 1 else 0) ∧
    (applyResult now p r).successfulVideos.length + (applyResult now p r).failedVideos.length
      = p.successfulVideos.length + p.failedVideos.length + (if isFulfilled r then 1 else 0) := by
  cases r with
  | fulfilled v =>
    by_cases hv : v.success <;> simp [applyResult, isFulfilled, hv] <;> omega
  | rejected m => simp [applyResult, isFulfilled]

lemma countFulfilled_cons (r : SettledResult α) (rs : List (SettledResult α)) :
    countFulfilled (r :: rs) = (if isFulfilled r then 1 else 0) + countFulfilled rs := by
  by_cases h : isFulfilled r <;> simp [countFulfilled, List.filter, h] <;> omega

/-- Field bookkeeping of the whole aggregation loop. -/
lemma foldl_applyResult_spec (now : String) (results : List (SettledResult ItemOutcome))
    (p : ProgressData) :
    (results.foldl (applyResult now) p).totalVideos = p.totalVideos ∧
    (results.foldl (applyResult now) p).startedAt = p.startedAt ∧
    (results.foldl (applyResult now) p).currentBatch = p.currentBatch ∧
    (results.foldl (applyResult now) p).totalBatches = p.totalBatches ∧
    (results.foldl (applyResult now) p).completedVideos
      = p.completedVideos + countFulfilled results ∧
    (results.foldl (applyResult now) p).successfulVideos.length
        + (results.foldl (applyResult now) p).failedVideos.length
      = p.successfulVideos.length + p.failedVideos.length + countFulfilled results := by
  induction results generalizing p with
  | nil => simp [countFulfilled]
  | cons r rs ih =>
    have h1 := applyResult_spec now p r
    have h2 := ih (applyResult now p r)
    simp only [List.foldl_cons, countFulfilled_cons]
    obtain ⟨a1, a2, a3, a4, a5, a6⟩ := h1
    obtain ⟨b1, b2, b3, b4, b5, b6⟩ := h2
    exact ⟨b1.trans a1, b2.trans a2, b3.trans a3, b4.trans a4, by omega, by omega⟩

lemma applyResult_succ_mem {id : String} (now : String) (p : ProgressData)
    (r : SettledResult ItemOutcome) (h : id ∈ p.successfulVideos) :
    id ∈ (applyResult now p r).successfulVideos := by
  cases r with
  | fulfilled v =>
    by_cases hv : v.success
    · simp [applyResult, hv]
      exact Or.inl h
    · simpa [applyResult, hv] using h
  | rejected m => simpa [applyResult] using h

lemma foldl_applyResult_succ_mem {id : String} (now : String)
    (results : List (SettledResult ItemOutcome)) (p : ProgressData)
    (h : id ∈ p.successfulVideos) :
    id ∈ (results.foldl (applyResult now) p).successfulVideos := by
  induction results generalizing p with
  | nil => simpa using h
  | cons r rs ih => exact ih _ (applyResult_succ_mem now p r h)

/-- Field bookkeeping of `processBatchCore`. -/
lemma processBatchCore_spec (now : String) (results : List (SettledResult ItemOutcome))
    (p : ProgressData) :
    (processBatchCore now results p).totalVideos = p.totalVideos ∧
    (processBatchCore now results p).startedAt = p.startedAt ∧
    (processBatchCore now results p).currentBatch = p.currentBatch + 1 ∧
    (processBatchCore now results p).totalBatches = p.totalBatches ∧
    (processBatchCore now results p).completedVideos
      = p.completedVideos + countFulfilled results ∧
    (processBatchCore now results p).successfulVideos.length
        + (processBatchCore now results p).failedVideos.length
      = p.successfulVideos.length + p.failedVideos.length + countFulfilled results := by
  have h := foldl_applyResult_spec now results p
  simp only [processBatchCore, saveProgress]
  exact ⟨h.1, h.2.1, by rw [h.2.2.1], h.2.2.2.1, h.2.2.2.2.1, h.2.2.2.2.2⟩

lemma processBatchCore_succ_mem {id : String} (now : String)
    (results : List (SettledResult ItemOutcome)) (p : ProgressData)
    (h : id ∈ p.successfulVideos) :
    id ∈ (processBatchCore now results p).successfulVideos := by
  simpa [processBatchCore, saveProgress] using
    foldl_applyResult_succ_mem now results p h

lemma countFulfilled_batchSettled (net : String → FetchResult) (videoIds : List String) :
    countFulfilled (batchSettled net videoIds) = videoIds.length := by
  simp [countFulfilled, batchSettled, List.filter_map, isFulfilled, Function.comp]

/-! ### Batching loop lemmas -/

lemma chunksGo_nil (B fuel : Nat) : chunksGo B fuel ([] : List α) = [] := by
  cases fuel <;> rfl

/-- With enough fuel the engine's result does not depend on the fuel. -/
lemma chunksGo_congr {B : Nat} (hB : 0 < B) :
    ∀ (fuel1 fuel2 : Nat) (l : List α), l.length ≤ fuel1 → l.length ≤ fuel2 →
      chunksGo B fuel1 l = chunksGo B fuel2 l := by
  intro fuel1
  induction fuel1 with
  | zero =>
    intro fuel2 l h1 _
    obtain rfl : l = [] := List.length_eq_zero.mp (Nat.le_zero.mp h1)
    rw [chunksGo_nil, chunksGo_nil]
  | succ f1 ih =>
    intro fuel2 l h1 h2
    cases l with
    | nil => rw [chunksGo_nil, chunksGo_nil]
    | cons x xs =>
      cases fuel2 with
      | zero => simp at h2
      | succ f2 =>
        simp only [chunksGo]
        congr 1
        apply ih
        · simp only [List.length_drop, List.length_cons]
          simp only [List.length_cons] at h1
          omega
        · simp only [List.length_drop, List.length_cons]
          simp only [List.length_cons] at h2
          omega

lemma chunks_nil (B : Nat) : chunks B ([] : List α) = [] := rfl

/-- One iteration of the batching loop. -/
lemma chunks_cons {B : Nat} (hB : 0 < B) (l : List α) (hl : l ≠ []) :
    chunks B l = l.take B :: chunks B (l.drop B) := by
  cases l with
  | nil => exact absurd rfl hl
  | cons x xs =>
    show chunksGo B (xs.length + 1) (x :: xs) = _
    simp only [chunksGo]
    congr 1
    apply chunksGo_congr hB
    · simp only [List.length_drop, List.length_cons]
      omega
    · exact le_rfl

lemma chunksGo_flatten {B : Nat} (hB : 0 < B) :
    ∀ (fuel : Nat) (l : List α), l.length ≤ fuel → (chunksGo B fuel l).flatten = l := by
  intro fuel
  induction fuel with
  | zero =>
    intro l h
    obtain rfl : l = [] := List.length_eq_zero.mp (Nat.le_zero.mp h)
    rfl
  | succ f ih =>
    intro l h
    cases l with
    | nil => rfl
    | cons x xs =>
      simp only [chunksGo, List.flatten_cons]
      rw [ih]
      · exact List.take_append_drop B (x :: xs)
      · simp only [List.length_drop, List.length_cons]
        simp only [List.length_cons] at h
        omega

/-- The batching loop's chunks concatenate back to the input list. -/
lemma chunks_flatten {B : Nat} (hB : 0 < B) (l : List α) :
    (chunks B l).flatten = l :=
  chunksGo_flatten hB l.length l le_rfl

lemma chunksGo_length_ten :
    ∀ (fuel : Nat) (l : List α), l.length ≤ fuel →
      (chunksGo 10 fuel l).length = (l.length + 9) / 10 := by
  intro fuel
  induction fuel with
  | zero =>
    intro l h
    obtain rfl : l = [] := List.length_eq_zero.mp (Nat.le_zero.mp h)
    simp [chunksGo_nil]
  | succ f ih =>
    intro l h
    cases l with
    | nil => simp [chunksGo_nil]
    | cons x xs =>
      simp only [chunksGo, List.length_cons]
      rw [ih]
      · simp only [List.length_drop, List.length_cons]
        omega
      · simp only [List.length_drop, List.length_cons]
        simp only [List.length_cons] at h
        omega

lemma chunksGo_sizes {B : Nat} (hB : 0 < B) :
    ∀ (fuel : Nat) (l : List α), l.length ≤ fuel →
      ∀ b ∈ chunksGo B fuel l, b ≠ [] ∧ b.length ≤ B := by
  intro fuel
  induction fuel with
  | zero =>
    intro l h
    obtain rfl : l = [] := List.length_eq_zero.mp (Nat.le_zero.mp h)
    simp [chunksGo_nil]
  | succ f ih =>
    intro l h
    cases l with
    | nil => simp [chunksGo_nil]
    | cons x xs =>
      intro b hb
      simp only [chunksGo] at hb
      rcases List.mem_cons.mp hb with rfl | hb
      · constructor
        · have : 0 < ((x :: xs).take B).length := by
            rw [List.length_take]
            simp only [List.length_cons]
            omega
          exact List.length_pos.mp this
        · rw [List.length_take]
          exact min_le_left _ _
      · apply ih ((x :: xs).drop B) _ b hb
        simp only [List.length_drop, List.length_cons]
        simp only [List.length_cons] at h
        omega

lemma chunksGo_dropLast {B : Nat} (hB : 0 < B) :
    ∀ (fuel : Nat) (l : List α), l.length ≤ fuel →
      ∀ b ∈ (chunksGo B fuel l).dropLast, b.length = B := by
  intro fuel
  induction fuel with
  | zero =>
    intro l h
    obtain rfl : l = [] := List.length_eq_zero.mp (Nat.le_zero.mp h)
    simp [chunksGo_nil]
  | succ f ih =>
    intro l h
    cases l with
    | nil => simp [chunksGo_nil]
    | cons x xs =>
      simp only [chunksGo]
      rcases hrest : chunksGo B f ((x :: xs).drop B) with _ | ⟨r, rs⟩
      · simp
      · rw [List.dropLast_cons₂]
        intro b hb
        rcases List.mem_cons.mp hb with rfl | hb
        · have hdrop : (x :: xs).drop B ≠ [] := by
            intro hd
            rw [hd, chunksGo_nil] at hrest
            exact List.cons_ne_nil r rs hrest.symm
          have hlen : B < (x :: xs).length := by
            have := List.length_pos.mpr hdrop
            simp only [List.length_drop] at this
            omega
          rw [List.length_take]
          omega
        · rw [← hrest] at hb
          apply ih ((x :: xs).drop B) _ b hb
          simp only [List.length_drop, List.length_cons]
          simp only [List.length_cons] at h
          omega

/-! ### Top-level run lemmas -/

/-- `main` on a successfully loaded progress record: filter, then either the
early-completion report or the batch loop. -/
lemma main_loaded (input : FileState VideoIdsData) (allVideoIds : List String)
    (p : ProgressData) (net : String → FetchResult) (clock : Nat → String)
    (hin : getBenDavisVideoIds input = some allVideoIds) :
    main input (.parsed p) net clock =
      if (resolveRemainder allVideoIds p).length = 0 then
        .done ⟨[], [], p, true⟩
      else
        .done (runBatches net clock (resolveRemainder allVideoIds p) p []) := by
  unfold main
  rw [hin]
  rfl

/-- `main` when `loadProgress` yields nothing: initialize a fresh record,
persist it at once, then run the batch loop over the full list. -/
lemma main_fresh (input : FileState VideoIdsData) (allVideoIds : List String)
    (progressFile : FileState ProgressData) (net : String → FetchResult)
    (clock : Nat → String)
    (hin : getBenDavisVideoIds input = some allVideoIds)
    (hload : loadProgress progressFile = none) :
    main input progressFile net clock =
      if allVideoIds.length = 0 then
        .done ⟨[], [⟨clock 0, clock 0, allVideoIds.length, 0, [], [], 1,
            (allVideoIds.length + BATCH_SIZE - 1) / BATCH_SIZE⟩],
          ⟨clock 0, clock 0, allVideoIds.length, 0, [], [], 1,
            (allVideoIds.length + BATCH_SIZE - 1) / BATCH_SIZE⟩, true⟩
      else
        .done (runBatches net clock allVideoIds
          ⟨clock 0, clock 0, allVideoIds.length, 0, [], [], 1,
            (allVideoIds.length + BATCH_SIZE - 1) / BATCH_SIZE⟩
          [⟨clock 0, clock 0, allVideoIds.length, 0, [], [], 1,
            (allVideoIds.length + BATCH_SIZE - 1) / BATCH_SIZE⟩]) := by
  unfold main
  rw [hin, hload]
  rfl

/-- The batch loop dispatches exactly the concatenation of its batches. -/
lemma runBatchesAux_dispatched (net : String → FetchResult) (clock : Nat → String) :
    ∀ (bs : List (List String)) (t : Nat) (p : ProgressData),
      (runBatchesAux net clock bs t p).1 = bs.flatten := by
  intro bs
  induction bs with
  | nil => intro t p; rfl
  | cons b rest ih =>
    intro t p
    simp only [runBatchesAux, List.flatten_cons]
    rw [ih]

/-- The batch loop never removes an ID from `successfulVideos`. -/
lemma runBatchesAux_succ_mem {id : String} (net : String → FetchResult)
    (clock : Nat → String) :
    ∀ (bs : List (List String)) (t : Nat) (p : ProgressData),
      id ∈ p.successfulVideos →
      id ∈ (runBatchesAux net clock bs t p).2.2.successfulVideos := by
  intro bs
  induction bs with
  | nil => intro t p h; exact h
  | cons b rest ih =>
    intro t p h
    exact ih (t + 1) _ (processBatchCore_succ_mem (clock t) (batchSettled net b) p h)

/-- An already-processed ID is filtered out of the remainder. -/
lemma not_mem_resolveRemainder {id : String} (allVideoIds : List String)
    (p : ProgressData) (hid : id ∈ processedVideoIds p) :
    id ∉ resolveRemainder allVideoIds p := by
  intro hmem
  rcases List.mem_filter.mp hmem with ⟨-, hb⟩
  simp [hid] at hb

/-- Core of the no-re-dispatch argument: a run loading a record whose
`successfulVideos` contains `id` never dispatches `id` and keeps it in
`successfulVideos` of the final (persisted) record. -/
lemma main_loaded_no_redispatch {id : String} (input : FileState VideoIdsData)
    (allVideoIds : List String) (p : ProgressData) (net : String → FetchResult)
    (clock : Nat → String)
    (hin : getBenDavisVideoIds input = some allVideoIds)
    (hid : id ∈ p.successfulVideos) :
    ∃ r, main input (.parsed p) net clock = .done r ∧
      id ∉ r.dispatched ∧ id ∈ r.finalProgress.successfulVideos := by
  have hproc : id ∈ processedVideoIds p := by
    rw [processedVideoIds]
    exact List.mem_append.mpr (Or.inl hid)
  rw [main_loaded input allVideoIds p net clock hin]
  by_cases h : (resolveRemainder allVideoIds p).length = 0
  · rw [if_pos h]
    exact ⟨_, rfl, List.not_mem_nil id, hid⟩
  · rw [if_neg h]
    refine ⟨_, rfl, ?_, ?_⟩
    · show id ∉ (runBatchesAux net clock
        (chunks BATCH_SIZE (resolveRemainder allVideoIds p)) 1 p).1
      rw [runBatchesAux_dispatched, chunks_flatten (by decide)]
      exact not_mem_resolveRemainder allVideoIds p hproc
    · exact runBatchesAux_succ_mem net clock _ 1 p hid

/-! ## Claim theorems -/

/-- C2: `resolveRemainder` returns exactly the sub-list of the full list, in
original order, of items not in the union of `successfulVideos` and the
failed-item IDs; and it is a pure, idempotent function of its inputs
(re-filtering its own output changes nothing). -/
theorem resolveRemainder_correct (allVideoIds : List String) (p : ProgressData) :
    resolveRemainder allVideoIds p
      = allVideoIds.filter (fun id =>
          decide (¬(id ∈ p.successfulVideos ∨ id ∈ p.failedVideos.map FailedVideo.videoId))) ∧
    resolveRemainder (resolveRemainder allVideoIds p) p = resolveRemainder allVideoIds p := by
  constructor
  · rw [resolveRemainder]
    apply List.filter_congr
    intro id _
    rw [Bool.eq_iff_iff]
    simp [processedVideoIds, not_or]
  · rw [resolveRemainder, resolveRemainder, List.filter_filter]
    simp

/-- C3: if `completedVideos = |successfulVideos| + |failedVideos|` holds
before a batch, it holds after `processBatch`'s aggregation completes, and
`completedVideos` grows by exactly the number of determinate (fulfilled)
outcomes in the batch — an unexpected rejection increments nothing. -/
theorem processBatch_completion_invariant (now : String)
    (results : List (SettledResult ItemOutcome)) (p : ProgressData)
    (h : p.completedVideos = p.successfulVideos.length + p.failedVideos.length) :
    (processBatchCore now results p).completedVideos
        = (processBatchCore now results p).successfulVideos.length
            + (processBatchCore now results p).failedVideos.length ∧
    (processBatchCore now results p).completedVideos
        = p.completedVideos + countFulfilled results := by
  obtain ⟨-, -, -, -, h5, h6⟩ := processBatchCore_spec now results p
  exact ⟨by omega, h5⟩

/-- Witness for C3 at a concrete batch: two fulfilled outcomes (one success,
one failure) and one rejection, starting from a fresh record. -/
theorem processBatch_completion_invariant_witness :
    ((⟨"s", "u", 3, 0, [], [], 1, 1⟩ : ProgressData).completedVideos
        = (⟨"s", "u", 3, 0, [], [], 1, 1⟩ : ProgressData).successfulVideos.length
            + (⟨"s", "u", 3, 0, [], [], 1, 1⟩ : ProgressData).failedVideos.length) ∧
    ((processBatchCore "t"
        [SettledResult.fulfilled ⟨"a", true⟩, SettledResult.fulfilled ⟨"b", false⟩,
          SettledResult.rejected "boom"]
        ⟨"s", "u", 3, 0, [], [], 1, 1⟩).completedVideos
        = (processBatchCore "t"
            [SettledResult.fulfilled ⟨"a", true⟩, SettledResult.fulfilled ⟨"b", false⟩,
              SettledResult.rejected "boom"]
            ⟨"s", "u", 3, 0, [], [], 1, 1⟩).successfulVideos.length
            + (processBatchCore "t"
                [SettledResult.fulfilled ⟨"a", true⟩, SettledResult.fulfilled ⟨"b", false⟩,
                  SettledResult.rejected "boom"]
                ⟨"s", "u", 3, 0, [], [], 1, 1⟩).failedVideos.length ∧
      (processBatchCore "t"
          [SettledResult.fulfilled ⟨"a", true⟩, SettledResult.fulfilled ⟨"b", false⟩,
            SettledResult.rejected "boom"]
          ⟨"s", "u", 3, 0, [], [], 1, 1⟩).completedVideos
        = (⟨"s", "u", 3, 0, [], [], 1, 1⟩ : ProgressData).completedVideos
            + countFulfilled
                [SettledResult.fulfilled (⟨"a", true⟩ : ItemOutcome),
                  SettledResult.fulfilled ⟨"b", false⟩, SettledResult.rejected "boom"]) :=
  ⟨by decide,
    processBatch_completion_invariant "t"
      [SettledResult.fulfilled ⟨"a", true⟩, SettledResult.fulfilled ⟨"b", false⟩,
        SettledResult.rejected "boom"]
      ⟨"s", "u", 3, 0, [], [], 1, 1⟩ (by decide)⟩

/-- C5: `makeCommentRequest` is total over its embedding (never propagates
an error): it returns `true` exactly when the fetch produced a response
with a 2xx status, `false` for every other status, and `false` for every
transport error. -/
theorem makeCommentRequest_outcome (net : String → FetchResult) (videoId : String) :
    (makeCommentRequest net videoId = true
        ↔ ∃ status, net videoId = .response status ∧ 200 ≤ status ∧ status ≤ 299) ∧
    (∀ status, net videoId = .response status → ¬(200 ≤ status ∧ status ≤ 299) →
        makeCommentRequest net videoId = false) ∧
    (∀ message, net videoId = .transportError message →
        makeCommentRequest net videoId = false) := by
  cases hn : net videoId with
  | response status =>
    refine ⟨?_, ?_, ?_⟩
    · simp [makeCommentRequest, hn, responseOk]
    · intro s hs hrange
      obtain rfl : status = s := by simpa using hs
      simp [makeCommentRequest, hn, responseOk]
      omega
    · intro m hm
      simp [hn] at hm
  | transportError m =>
    refine ⟨?_, ?_, ?_⟩
    · simp [makeCommentRequest, hn]
    · intro s hs
      simp [hn] at hs
    · intro m2 _
      simp [makeCommentRequest, hn]

/-- C9: `processBatch` and `saveProgress` never modify `totalVideos` or
`startedAt`, and `completedVideos` is monotonically non-decreasing under
both. -/
theorem run_frame_fields (net : String → FetchResult) (now : String)
    (videoIds : List String) (p : ProgressData) :
    ((processBatch net now videoIds p).totalVideos = p.totalVideos ∧
     (processBatch net now videoIds p).startedAt = p.startedAt ∧
     p.completedVideos ≤ (processBatch net now videoIds p).completedVideos) ∧
    ((saveProgress now p).totalVideos = p.totalVideos ∧
     (saveProgress now p).startedAt = p.startedAt ∧
     (saveProgress now p).completedVideos = p.completedVideos) := by
  obtain ⟨h1, h2, -, -, h5, -⟩ :=
    processBatchCore_spec now (batchSettled net videoIds) p
  exact ⟨⟨h1, h2, by rw [processBatch, h5]; omega⟩, rfl, rfl, rfl⟩

/-- C10: every promise `processBatch` hands to `Promise.allSettled` is
fulfilled (the rejected branch is unreachable for the promises the code
actually builds), so `completedVideos` grows by exactly the batch length. -/
theorem processBatch_all_fulfilled (net : String → FetchResult) (now : String)
    (videoIds : List String) (p : ProgressData) :
    (∀ r ∈ batchSettled net videoIds, ∃ v, r = SettledResult.fulfilled v) ∧
    (processBatch net now videoIds p).completedVideos
      = p.completedVideos + videoIds.length := by
  constructor
  · intro r hr
    simp only [batchSettled, List.mem_map] at hr
    obtain ⟨id, -, rfl⟩ := hr
    exact ⟨_, rfl⟩
  · have h := (processBatchCore_spec now (batchSettled net videoIds) p).2.2.2.2.1
    rw [processBatch, h, countFulfilled_batchSettled]

/-- C4: the batching loop partitions any remaining-items list of size `N`
into `ceil(N / BATCH_SIZE)` batches whose sizes sum to `N`, each nonempty
and of size at most `BATCH_SIZE`, all of size exactly `BATCH_SIZE` except
possibly the last, and whose in-order concatenation is the list itself. -/
theorem batching_partition (remaining : List String) :
    (chunks BATCH_SIZE remaining).length
        = (remaining.length + BATCH_SIZE - 1) / BATCH_SIZE ∧
    (chunks BATCH_SIZE remaining).flatten = remaining ∧
    ((chunks BATCH_SIZE remaining).map List.length).sum = remaining.length ∧
    (∀ b ∈ chunks BATCH_SIZE remaining, b ≠ [] ∧ b.length ≤ BATCH_SIZE) ∧
    (∀ b ∈ (chunks BATCH_SIZE remaining).dropLast, b.length = BATCH_SIZE) := by
  have hB : 0 < BATCH_SIZE := by decide
  refine ⟨?_, chunks_flatten hB remaining, ?_, ?_, ?_⟩
  · exact chunksGo_length_ten remaining.length remaining le_rfl
  · rw [← List.length_flatten, chunks_flatten hB]
  · exact chunksGo_sizes hB remaining.length remaining le_rfl
  · exact chunksGo_dropLast hB remaining.length remaining le_rfl

/-- C1: if `successfulVideos` together with the failed-item IDs already
covers every item of the full input list, `run()` performs zero dispatches,
reports completion, and leaves the progress record unchanged (it is not
even re-persisted). -/
theorem run_idempotent_noop (input : FileState VideoIdsData)
    (allVideoIds : List String) (p : ProgressData) (net : String → FetchResult)
    (clock : Nat → String)
    (hin : getBenDavisVideoIds input = some allVideoIds)
    (hcov : ∀ id ∈ allVideoIds, id ∈ processedVideoIds p) :
    main input (.parsed p) net clock = .done ⟨[], [], p, true⟩ := by
  have hrem : resolveRemainder allVideoIds p = [] := by
    rw [resolveRemainder, List.filter_eq_nil_iff]
    intro id hid
    simp [hcov id hid]
  rw [main_loaded input allVideoIds p net clock hin, hrem]
  rfl

/-- Witness for C1: a fully covered two-item universe (one success, one
failure) makes a resumed run a no-op. -/
theorem run_idempotent_noop_witness :
    (getBenDavisVideoIds (.parsed ⟨"f", [⟨"c", "Ben Davis", ["a", "b"], 2⟩], 2⟩)
        = some ["a", "b"]) ∧
    (∀ id ∈ ["a", "b"],
        id ∈ processedVideoIds ⟨"s", "u", 2, 2, ["a"], [⟨"b", "e", "t"⟩], 3, 1⟩) ∧
    main (.parsed ⟨"f", [⟨"c", "Ben Davis", ["a", "b"], 2⟩], 2⟩)
        (.parsed ⟨"s", "u", 2, 2, ["a"], [⟨"b", "e", "t"⟩], 3, 1⟩)
        (fun _ => .response 200) (fun _ => "t")
      = .done ⟨[], [], ⟨"s", "u", 2, 2, ["a"], [⟨"b", "e", "t"⟩], 3, 1⟩, true⟩ :=
  ⟨by decide, by decide,
    run_idempotent_noop (.parsed ⟨"f", [⟨"c", "Ben Davis", ["a", "b"], 2⟩], 2⟩)
      ["a", "b"] ⟨"s", "u", 2, 2, ["a"], [⟨"b", "e", "t"⟩], 3, 1⟩
      (fun _ => .response 200) (fun _ => "t") (by decide) (by decide)⟩

/-- C6 counterexample: with a well-formed input document naming one video
and a malformed progress document, the run does NOT abort at startup — it
treats the progress file as absent and dispatches the video, contradicting
the claim that a malformed progress document is fatal before any batch. -/
theorem malformed_progress_dispatches :
    main (.parsed ⟨"f", [⟨"c", "Ben Davis", ["v1"], 1⟩], 1⟩) .malformed
        (fun _ => .response 200) (fun _ => "t") ≠ .aborted ∧
    dispatchedOf (main (.parsed ⟨"f", [⟨"c", "Ben Davis", ["v1"], 1⟩], 1⟩) .malformed
        (fun _ => .response 200) (fun _ => "t")) = ["v1"] := by
  decide

/-- C6 amended: a malformed or missing INPUT document is fatal at startup
(the run aborts, dispatching nothing); a missing progress document starts a
fresh record (the stated lifecycle); and a malformed PROGRESS document is
not fatal — `loadProgress` catches the parse error and the run behaves
exactly as if the progress file were absent. -/
theorem startup_document_handling :
    (∀ (progressFile : FileState ProgressData) (net : String → FetchResult)
        (clock : Nat → String), main .missing progressFile net clock = .aborted) ∧
    (∀ (progressFile : FileState ProgressData) (net : String → FetchResult)
        (clock : Nat → String), main .malformed progressFile net clock = .aborted) ∧
    (∀ (input : FileState VideoIdsData) (net : String → FetchResult)
        (clock : Nat → String),
        main input .malformed net clock = main input .missing net clock) := by
  refine ⟨fun _ _ _ => rfl, fun _ _ _ => rfl, fun input net clock => ?_⟩
  unfold main
  cases getBenDavisVideoIds input <;> rfl

/-- C7: with no persisted progress record, `run()` builds a fresh record
with `completedVideos = 0`, empty success/failure collections,
`currentBatch = 1` and `totalBatches = ceil(totalItems / BATCH_SIZE)`
(`(n + BATCH_SIZE - 1) / BATCH_SIZE` in ℕ), and persists it as its very
first write, before any batch write. -/
theorem fresh_run_initializes (input : FileState VideoIdsData)
    (allVideoIds : List String) (net : String → FetchResult) (clock : Nat → String)
    (hin : getBenDavisVideoIds input = some allVideoIds) :
    ∃ r rest, main input .missing net clock = .done r ∧
      r.saved = (⟨clock 0, clock 0, allVideoIds.length, 0, [], [], 1,
        (allVideoIds.length + BATCH_SIZE - 1) / BATCH_SIZE⟩ : ProgressData) :: rest := by
  rw [main_fresh input allVideoIds .missing net clock hin rfl]
  by_cases h : allVideoIds.length = 0
  · rw [if_pos h]
    exact ⟨_, [], rfl, rfl⟩
  · rw [if_neg h]
    exact ⟨_, _, rfl, rfl⟩

/-- Witness for C7: a fresh run over a 12-item universe initializes and
persists a record with `totalBatches = 2`. -/
theorem fresh_run_initializes_witness :
    (getBenDavisVideoIds (.parsed ⟨"f",
        [⟨"c", "Ben Davis",
          ["a", "b", "c", "d", "e", "f", "g", "h", "i", "j", "k", "l"], 12⟩], 12⟩)
      = some ["a", "b", "c", "d", "e", "f", "g", "h", "i", "j", "k", "l"]) ∧
    ∃ r rest,
      main (.parsed ⟨"f",
          [⟨"c", "Ben Davis",
            ["a", "b", "c", "d", "e", "f", "g", "h", "i", "j", "k", "l"], 12⟩], 12⟩)
        .missing (fun _ => .response 200) (fun _ => "t") = .done r ∧
      r.saved = (⟨"t", "t",
          (["a", "b", "c", "d", "e", "f", "g", "h", "i", "j", "k", "l"] : List String).length,
          0, [], [], 1,
          ((["a", "b", "c", "d", "e", "f", "g", "h", "i", "j", "k", "l"] : List String).length
            + BATCH_SIZE - 1) / BATCH_SIZE⟩ : ProgressData) :: rest :=
  ⟨by decide,
    fresh_run_initializes (.parsed ⟨"f",
        [⟨"c", "Ben Davis",
          ["a", "b", "c", "d", "e", "f", "g", "h", "i", "j", "k", "l"], 12⟩], 12⟩)
      ["a", "b", "c", "d", "e", "f", "g", "h", "i", "j", "k", "l"]
      (fun _ => .response 200) (fun _ => "t") (by decide)⟩

/-- C8: an item in `successfulVideos` of a loaded progress record is never
dispatched in that run, remains in `successfulVideos` of the final
persisted record, and is therefore also never dispatched by any subsequent
run that loads that record. -/
theorem successful_never_redispatched (input : FileState VideoIdsData)
    (allVideoIds : List String) (p : ProgressData) (net : String → FetchResult)
    (clock : Nat → String) (id : String)
    (hin : getBenDavisVideoIds input = some allVideoIds)
    (hid : id ∈ p.successfulVideos) :
    ∃ r, main input (.parsed p) net clock = .done r ∧
      id ∉ r.dispatched ∧ id ∈ r.finalProgress.successfulVideos ∧
      ∀ (input2 : FileState VideoIdsData) (all2 : List String)
        (net2 : String → FetchResult) (clock2 : Nat → String),
        getBenDavisVideoIds input2 = some all2 →
        ∃ r2, main input2 (.parsed r.finalProgress) net2 clock2 = .done r2 ∧
          id ∉ r2.dispatched := by
  obtain ⟨r, hr, hd, hf⟩ :=
    main_loaded_no_redispatch input allVideoIds p net clock hin hid
  refine ⟨r, hr, hd, hf, fun input2 all2 net2 clock2 hin2 => ?_⟩
  obtain ⟨r2, hr2, hd2, -⟩ :=
    main_loaded_no_redispatch input2 all2 r.finalProgress net2 clock2 hin2 hf
  exact ⟨r2, hr2, hd2⟩

/-- Witness for C8: a record with `"a"` already successful over the universe
`["a", "b"]`; the resumed run must not touch `"a"`. -/
theorem successful_never_redispatched_witness :
    (getBenDavisVideoIds (.parsed ⟨"f", [⟨"c", "Ben Davis", ["a", "b"], 2⟩], 2⟩)
        = some ["a", "b"]) ∧
    ("a" ∈ (⟨"s", "u", 2, 1, ["a"], [], 2, 1⟩ : ProgressData).successfulVideos) ∧
    ∃ r, main (.parsed ⟨"f", [⟨"c", "Ben Davis", ["a", "b"], 2⟩], 2⟩)
        (.parsed ⟨"s", "u", 2, 1, ["a"], [], 2, 1⟩)
        (fun _ => .response 500) (fun _ => "t") = .done r ∧
      "a" ∉ r.dispatched ∧ "a" ∈ r.finalProgress.successfulVideos ∧
      ∀ (input2 : FileState VideoIdsData) (all2 : List String)
        (net2 : String → FetchResult) (clock2 : Nat → String),
        getBenDavisVideoIds input2 = some all2 →
        ∃ r2, main input2 (.parsed r.finalProgress) net2 clock2 = .done r2 ∧
          "a" ∉ r2.dispatched :=
  ⟨by decide, by decide,
    successful_never_redispatched (.parsed ⟨"f", [⟨"c", "Ben Davis", ["a", "b"], 2⟩], 2⟩)
      ["a", "b"] ⟨"s", "u", 2, 1, ["a"], [], 2, 1⟩
      (fun _ => .response 500) (fun _ => "t") "a" (by decide) (by decide)⟩

end ParseBenDavisComments
